import Mathlib

/-!
Verification of the ELD Library storage/authorization core (`scripts/server.py`)
against its specification.

Shallow-embedding conventions:
* Byte strings are `List Nat` (byte values); `password.encode("utf-8")` is
  abstracted by taking the password already in byte form.
* Absolute filesystem paths are lists of path components, each component a
  `List Char`; `str(path)` of an absolute `pathlib` path is `pathChars`.
* The server's disk is an association list from absolute paths to entries
  (regular file with its content, or directory).
* The external `bcrypt.checkpw` is an oracle parameter
  `bc : Bytes → Bytes → Option Bool`; `none` stands for the call raising an
  exception (which the source's `except` clause turns into `False`).
-/

namespace ELD

abbrev Bytes := List Nat
abbrev Comp := List Char
abbrev AbsPath := List Comp

inductive FsEntry where
  | file (content : Bytes)
  | dir
  deriving DecidableEq, Repr

/-- The server's disk: absolute path ↦ entry, first binding wins. -/
abbrev FS := List (AbsPath × FsEntry)

def lookupFS (fs : FS) (p : AbsPath) : Option FsEntry :=
  match fs.find? (fun kv => kv.1 == p) with
  | some kv => some kv.2
  | none => none

def setFS : FS → AbsPath → FsEntry → FS
  | [], p, e => [(p, e)]
  | kv :: rest, p, e => if kv.1 == p then (p, e) :: rest else kv :: setFS rest p e

/-- `PROJECTS_DIR = BASE_DIR / "projects"` (server.py line 9), with a fixed
representative install location for `BASE_DIR`. -/
def projectsDir : AbsPath := ["srv".data, "eld".data, "projects".data]

/-- `PROJECTS_DIR / proj`. -/
def projRoot (proj : String) : AbsPath := projectsDir ++ [proj.data]

/-- `str(p)` for an absolute `pathlib` path: each component preceded by `/`
(and bare `/` for the filesystem root). -/
def pathChars (comps : AbsPath) : List Char :=
  if comps = [] then ['/'] else (comps.map (fun c => '/' :: c)).flatten

/-- Split a character string on `/`, as `pathlib` parses path strings. -/
def splitSlash : List Char → List Comp
  | [] => [[]]
  | c :: rest =>
    if c = '/' then [] :: splitSlash rest
    else
      match splitSlash rest with
      | [] => [[c]]
      | g :: gs => (c :: g) :: gs

/-- Lexical resolution of components against a base directory, as
`Path.resolve()` behaves on a symlink-free tree: empty and `.` components are
skipped, `..` removes the last component (staying put at the filesystem root),
anything else descends. -/
def resolveFrom (base : AbsPath) (comps : List Comp) : AbsPath :=
  comps.foldl
    (fun acc c =>
      if c = [] ∨ c = ['.'] then acc
      else if c = ['.', '.'] then acc.dropLast
      else acc ++ [c]) base

/-- `(base / path).resolve()`: `pathlib`'s `/` discards the left-hand side when
the right-hand side is absolute. -/
def joinResolve (base : AbsPath) (path : List Char) : AbsPath :=
  if path.head? = some '/' then resolveFrom [] (splitSlash path)
  else resolveFrom base (splitSlash path)

structure HError where
  status : Nat
  detail : String
  deriving DecidableEq, Repr

inductive DlResult where
  | err (e : HError)
  | serve (fpath : AbsPath)
  deriving DecidableEq, Repr

/-- `download` handler body after token resolution (server.py lines 127-134):
resolve the client path under the project root, reject when the resolved
string does not start with the resolved root string, 404 when nothing exists
there, otherwise answer with a `FileResponse` over the resolved path. -/
def downloadCore (fs : FS) (proj : String) (path : String) : DlResult :=
  let fpath := joinResolve (projRoot proj) path.data
  if ((pathChars (projRoot proj)).isPrefixOf (pathChars fpath)) = false then
    .err ⟨400, "Invalid path"⟩
  else if (lookupFS fs fpath).isSome = false then
    .err ⟨404, "File not found"⟩
  else
    .serve fpath

/-- Bytes actually streamed by `FileResponse`: the content of a regular file;
a directory produces no byte stream (the response fails when it is sent). -/
def dlBytes (fs : FS) : DlResult → Option Bytes
  | .serve p =>
    match lookupFS fs p with
    | some (.file b) => some b
    | _ => none
  | .err _ => none

def replaceBackslash (s : List Char) : List Char :=
  s.map (fun c => if c = '\\' then '/' else c)

/-- Components `PurePosixPath` keeps: empty and `.` pieces disappear. -/
def keepComp (c : Comp) : Bool := decide (c ≠ [] ∧ c ≠ ['.'])

def intercalateSlash : List Comp → List Char
  | [] => []
  | [c] => c
  | c :: cs => c ++ '/' :: intercalateSlash cs

/-- Component list of
`pathlib.Path(path.replace("\\", "/")).as_posix().lstrip("/")`
(server.py line 144): backslashes become slashes, `pathlib` drops empty and
`.` components, and stripping leading slashes removes the root. -/
def uploadRelComps (path : List Char) : List Comp :=
  (splitSlash (replaceBackslash path)).filter keepComp

/-- The normalized relative path string `rel` of server.py line 144. -/
def uploadRel (path : List Char) : List Char :=
  intercalateSlash (uploadRelComps path)

/-- Python's substring test `needle in hay`. -/
def containsSub (needle : List Char) : List Char → Bool
  | [] => needle.isPrefixOf []
  | c :: rest => needle.isPrefixOf (c :: rest) || containsSub needle rest

def dotdot : List Char := ['.', '.']

/-- `dest = (PROJECTS_DIR / proj / rel).resolve()` (server.py line 148). -/
def uploadDest (proj : String) (path : String) : AbsPath :=
  joinResolve (projRoot proj) (uploadRel path.data)

/-- `dest.parent.mkdir(parents=True, exist_ok=True)` (line 153): ensure an
entry for every missing ancestor (existing entries are left alone; collisions
of an ancestor with a regular file are outside every claim). -/
def mkParents (fs : FS) (p : AbsPath) : FS :=
  (List.range p.length).foldl
    (fun acc k =>
      if (lookupFS acc (p.take k)).isSome then acc else setFS acc (p.take k) .dir) fs

/-- `str(dest.relative_to(root)).replace("\\", "/")` on POSIX (line 158). -/
def savedRel (root dest : AbsPath) : List Char :=
  if dest = root then ['.'] else intercalateSlash (dest.drop root.length)

/-- `upload` handler body after token resolution (server.py lines 143-158),
with the fully received stream contents as `content`: normalize the path,
reject when the normalized form contains `..` or starts with `/`, reject when
the resolved destination string does not start with the resolved root string,
then create parent directories and write the bytes at the destination. -/
def uploadCore (fs : FS) (proj : String) (path : String) (content : Bytes) :
    Except HError (FS × List Char) :=
  let rel := uploadRel path.data
  if containsSub dotdot rel || (['/'] : List Char).isPrefixOf rel then
    .error ⟨400, "Invalid path"⟩
  else
    let dest := uploadDest proj path
    let root := projRoot proj
    if ((pathChars root).isPrefixOf (pathChars dest)) = false then
      .error ⟨400, "Invalid path"⟩
    else
      .ok (setFS (mkParents fs dest) dest (.file content), savedRel root dest)

/-- Observable filesystem states while `shutil.copyfileobj` streams `chunks`
into `open(dest, "wb")` (server.py lines 155-156): opening truncates the file,
which then grows chunk by chunk. -/
def writeStates (fs : FS) (dest : AbsPath) (chunks : List Bytes) : List FS :=
  (List.range (chunks.length + 1)).map
    (fun k => setFS fs dest (.file ((chunks.take k).flatten)))

/-- The module-level `TOKENS` dict (line 10): project ↦ token, insertion
ordered, as Python dicts are. -/
abbrev Tokens := List (String × String)

/-- `TOKENS[project] = token`: updating an existing key keeps its position,
a new key is appended. -/
def updateTokens : Tokens → String → String → Tokens
  | [], proj, tok => [(proj, tok)]
  | kv :: rest, proj, tok =>
    if kv.1 == proj then (proj, tok) :: rest else kv :: updateTokens rest proj tok

/-- `_project_from_token` (server.py lines 55-59): first registry entry whose
value equals the token. -/
def project_from_token (ts : Tokens) (token : String) : Except HError String :=
  match ts.find? (fun kv => kv.2 == token) with
  | some kv => .ok kv.1
  | none => .error ⟨401, "Invalid token"⟩

/-- `_require_bearer` (server.py lines 50-53). -/
def require_bearer (authorization : Option String) : Except HError String :=
  match authorization with
  | none => .error ⟨401, "Missing token"⟩
  | some a =>
    if ("Bearer ".data.isPrefixOf a.data) = false then .error ⟨401, "Missing token"⟩
    else .ok ⟨a.data.drop 7⟩

def wsByte (b : Nat) : Bool :=
  b == 32 || b == 9 || b == 10 || b == 13 || b == 11 || b == 12

/-- Python `bytes.strip()`: ASCII whitespace removed from both ends. -/
def stripBytes (l : Bytes) : Bytes :=
  ((l.reverse.dropWhile wsByte).reverse).dropWhile wsByte

/-- ASCII byte encoding, standing for `str.encode("utf-8")` on the ASCII
strings appearing throughout. -/
def asciiBytes (s : String) : Bytes := s.data.map Char.toNat

/-- `b"$2"`. -/
def dollarTwo : Bytes := [36, 50]

/-- Core of `_verify_password` (server.py lines 39-48) applied to the bytes
read from the `.passwd` record: strip, then bcrypt-check when the stripped
record starts with `$2`, else exact byte comparison. -/
def verifyRaw (bc : Bytes → Bytes → Option Bool) (raw pw : Bytes) : Bool :=
  let r := stripBytes raw
  if dollarTwo.isPrefixOf r then (bc pw r).getD false
  else pw == r

/-- `_passwd_path` (server.py lines 24-25). -/
def passwd_path (proj : String) : AbsPath := projRoot proj ++ [".passwd".data]

/-- `_has_passwd` (line 27-28): the `.passwd` entry exists. -/
def has_passwd (fs : FS) (proj : String) : Bool :=
  (lookupFS fs (passwd_path proj)).isSome

/-- `_verify_password` (lines 30-48): absent record means `False`; an existing
regular file is read, stripped and checked. (A `.passwd` that is a directory
would make `read_bytes` raise; that corner is outside every claim and is
modelled as `False`.) -/
def verify_password (fs : FS) (bc : Bytes → Bytes → Option Bool)
    (proj : String) (pw : Bytes) : Bool :=
  match lookupFS fs (passwd_path proj) with
  | some (.file raw) => verifyRaw bc raw pw
  | _ => false

def projExists (fs : FS) (proj : String) : Bool :=
  (lookupFS fs (projRoot proj)).isSome

/-- `login` (server.py lines 76-91): 404 for a missing project directory, 401
when no `.passwd` exists, 401 on failed verification, otherwise mint
`token-<project>`, register it and return it. Returns the HTTP outcome and
the updated registry. -/
def login (fs : FS) (ts : Tokens) (bc : Bytes → Bytes → Option Bool)
    (proj : String) (pw : Bytes) : Except HError String × Tokens :=
  if projExists fs proj = false then
    (.error ⟨404, "Project not found"⟩, ts)
  else if has_passwd fs proj = false then
    (.error ⟨401, "Password not set for project"⟩, ts)
  else if verify_password fs bc proj pw = false then
    (.error ⟨401, "Invalid password"⟩, ts)
  else
    (.ok ("token-" ++ proj), updateTokens ts proj ("token-" ++ proj))

/-- Full `download` endpoint (lines 122-134): bearer extraction, token
resolution, then the core handler. -/
def download (ts : Tokens) (fs : FS) (path : String)
    (authorization : Option String) : DlResult :=
  match require_bearer authorization with
  | .error e => .err e
  | .ok tok =>
    match project_from_token ts tok with
    | .error e => .err e
    | .ok proj => downloadCore fs proj path

/-- Full `upload` endpoint (lines 136-158). -/
def upload (ts : Tokens) (fs : FS) (path : String) (content : Bytes)
    (authorization : Option String) : Except HError (FS × List Char) :=
  match require_bearer authorization with
  | .error e => .error e
  | .ok tok =>
    match project_from_token ts tok with
    | .error e => .error e
    | .ok proj => uploadCore fs proj path content

/-- The recognized asset-extension set (server.py line 103). -/
def manifestExts : List String := ["bgeo", "abc", "vdb", "cpio", "jpg", "png"]

structure Asset where
  id : String
  type : String
  version : Nat
  path : String
  thumb : Option String
  bytes_total : Nat
  deriving DecidableEq, Repr

/-- Index of the last `.` in a name, Python's `name.rfind(".")`. -/
def rfindDot (name : List Char) : Option Nat :=
  match name.reverse.findIdx? (fun c => c == '.') with
  | none => none
  | some j => some (name.length - 1 - j)

/-- `pathlib.PurePath.suffix`: from the last `.` on, when that dot is neither
the first nor the last character of the name. -/
def pySuffix (name : List Char) : List Char :=
  match rfindDot name with
  | none => []
  | some i => if 0 < i ∧ i + 1 < name.length then name.drop i else []

/-- `pathlib.PurePath.stem`: the name with its suffix removed. -/
def pyStem (name : List Char) : List Char :=
  match rfindDot name with
  | none => name
  | some i => if 0 < i ∧ i + 1 < name.length then name.take i else name

/-- `Path(fname).suffix.lower().lstrip(".")` (server.py line 107). -/
def extOf (fname : List Char) : String :=
  ⟨((pySuffix fname).map Char.toLower).dropWhile (fun c => c == '.')⟩

/-- One step of the manifest scan (server.py lines 106-119) for a walked
regular file, given its project-relative POSIX path and its byte size. -/
def assetOf (relpath : String) (size : Nat) : Option Asset :=
  let fname := (splitSlash relpath.data).getLastD []
  let ext := extOf fname
  if (manifestExts.contains ext) = false then none
  else
    some ⟨⟨pyStem fname⟩, ext, 1, relpath,
          if ext == "jpg" || ext == "png" then some relpath else none, size⟩

/-- `manifest` scan (lines 102-120): the `os.walk` of the project tree is
abstracted as the traversal-ordered list of `(project-relative path, size)`
pairs of the regular files under the project root. -/
def buildManifest (files : List (String × Nat)) : List Asset :=
  files.filterMap (fun f => assetOf f.1 f.2)

/-! ### Infrastructure lemmas -/

theorem lookupFS_setFS_self (fs : FS) (p : AbsPath) (e : FsEntry) :
    lookupFS (setFS fs p e) p = some e := by
  induction fs with
  | nil => simp [setFS, lookupFS]
  | cons kv rest ih =>
    by_cases h : kv.1 = p
    · simp [setFS, h, lookupFS]
    · have hb : (kv.1 == p) = false := beq_eq_false_iff_ne.mpr h
      simp only [setFS, hb, Bool.false_eq_true, if_false]
      simpa [lookupFS, List.find?, hb] using ih

theorem splitSlash_ne_nil (s : List Char) : splitSlash s ≠ [] := by
  cases s with
  | nil => simp [splitSlash]
  | cons c rest =>
    by_cases h : c = '/'
    · simp [splitSlash, h]
    · simp only [splitSlash, h, if_false]
      cases splitSlash rest <;> simp

theorem splitSlash_slash_not_mem (s : List Char) :
    ∀ c ∈ splitSlash s, '/' ∉ c := by
  induction s with
  | nil => simp [splitSlash]
  | cons a rest ih =>
    by_cases h : a = '/'
    · simp only [splitSlash, h, if_true]
      intro c hc
      rcases List.mem_cons.mp hc with h1 | h1
      · simp [h1]
      · exact ih c h1
    · simp only [splitSlash, h, if_false]
      cases hs : splitSlash rest with
      | nil => exact absurd hs (splitSlash_ne_nil rest)
      | cons g gs =>
        intro c hc
        rcases List.mem_cons.mp hc with h1 | h1
        · subst h1
          intro hm
          rcases List.mem_cons.mp hm with h2 | h2
          · exact h h2.symm
          · exact ih g (hs ▸ List.mem_cons_self g gs) h2
        · exact ih c (hs ▸ List.mem_cons_of_mem g h1)

theorem splitSlash_slashFree (c : Comp) (h : '/' ∉ c) : splitSlash c = [c] := by
  induction c with
  | nil => simp [splitSlash]
  | cons a c' ih =>
    have ha : a ≠ '/' := fun e => h (e ▸ List.mem_cons_self a c')
    have h' : '/' ∉ c' := fun e => h (List.mem_cons_of_mem a e)
    simp [splitSlash, ha, ih h']

theorem splitSlash_append_slash (c : Comp) (t : List Char) (h : '/' ∉ c) :
    splitSlash (c ++ '/' :: t) = c :: splitSlash t := by
  induction c with
  | nil => simp [splitSlash]
  | cons a c' ih =>
    have ha : a ≠ '/' := fun e => h (e ▸ List.mem_cons_self a c')
    have h' : '/' ∉ c' := fun e => h (List.mem_cons_of_mem a e)
    simp [splitSlash, ha, ih h']

theorem splitSlash_intercalate (cs : List Comp) (hne : cs ≠ [])
    (hsf : ∀ c ∈ cs, '/' ∉ c) :
    splitSlash (intercalateSlash cs) = cs := by
  induction cs with
  | nil => exact absurd rfl hne
  | cons c cs' ih =>
    cases cs' with
    | nil =>
      simp only [intercalateSlash]
      exact splitSlash_slashFree c (hsf c (List.mem_cons_self c []))
    | cons d ds =>
      have step : intercalateSlash (c :: d :: ds) = c ++ '/' :: intercalateSlash (d :: ds) := rfl
      rw [step, splitSlash_append_slash c _ (hsf c (List.mem_cons_self c (d :: ds))),
        ih (by simp) (fun x hx => hsf x (List.mem_cons_of_mem c hx))]

theorem containsSub_of_isPrefixOf (n l : List Char) (h : n.isPrefixOf l = true) :
    containsSub n l = true := by
  cases l with
  | nil => simpa [containsSub] using h
  | cons c rest => simp [containsSub, h]

theorem containsSub_of_parts (n : List Char) :
    ∀ (s t l : List Char), s ++ n ++ t = l → containsSub n l = true := by
  intro s
  induction s with
  | nil =>
    intro t l h
    apply containsSub_of_isPrefixOf
    exact List.isPrefixOf_iff_prefix.mpr ⟨t, by simpa using h⟩
  | cons a s' ih =>
    intro t l h
    cases l with
    | nil => simp at h
    | cons b rest =>
      have hb : a = b := by simpa using congrArg (·.head?) h
      have hr : s' ++ n ++ t = rest := by simpa using congrArg (·.tail) h
      simp [containsSub, ih t rest hr]

theorem mem_intercalate_parts (c : Comp) (cs : List Comp) (h : c ∈ cs) :
    ∃ s t, s ++ c ++ t = intercalateSlash cs := by
  induction cs with
  | nil => cases h
  | cons d ds ih =>
    cases ds with
    | nil =>
      rcases List.mem_cons.mp h with h1 | h1
      · exact ⟨[], [], by simp [h1, intercalateSlash]⟩
      · cases h1
    | cons e es =>
      rcases List.mem_cons.mp h with h1 | h1
      · exact ⟨[], '/' :: intercalateSlash (e :: es), by simp [h1, intercalateSlash]⟩
      · rcases ih h1 with ⟨s, t, hst⟩
        exact ⟨d ++ '/' :: s, t, by simp [intercalateSlash, ← hst]⟩

theorem resolveFrom_regular (cs : List Comp)
    (h : ∀ c ∈ cs, ¬(c = [] ∨ c = ['.']) ∧ c ≠ ['.', '.']) :
    ∀ base, resolveFrom base cs = base ++ cs := by
  induction cs with
  | nil => intro base; simp [resolveFrom]
  | cons c cs' ih =>
    intro base
    have hc := h c (List.mem_cons_self c cs')
    have step : resolveFrom base (c :: cs') = resolveFrom (base ++ [c]) cs' := by
      simp [resolveFrom, hc.1, hc.2]
    rw [step, ih (fun x hx => h x (List.mem_cons_of_mem c hx)) (base ++ [c])]
    simp

theorem resolveFrom_filter (cs : List Comp) :
    ∀ base, resolveFrom base cs = resolveFrom base (cs.filter keepComp) := by
  induction cs with
  | nil => intro base; simp
  | cons c cs' ih =>
    intro base
    by_cases h : c = [] ∨ c = ['.']
    · have hk : keepComp c = false := by
        simp only [keepComp, decide_eq_false_iff_not]
        tauto
      have step : resolveFrom base (c :: cs') = resolveFrom base cs' := by
        simp [resolveFrom, h]
      rw [step, List.filter_cons_of_neg (by simp [hk]), ih]
    · have hk : keepComp c = true := by
        simp only [keepComp, decide_eq_true_eq]
        tauto
      have step : ∀ b (tl : List Comp), resolveFrom b (c :: tl) =
          resolveFrom (if c = ['.', '.'] then b.dropLast else b ++ [c]) tl := by
        intro b tl
        by_cases hdd : c = ['.', '.'] <;> simp [resolveFrom, h, hdd]
      rw [List.filter_cons_of_pos hk, step, step, ih]

theorem pathChars_isPrefixOf_append (a b : AbsPath) :
    (pathChars a).isPrefixOf (pathChars (a ++ b)) = true := by
  apply List.isPrefixOf_iff_prefix.mpr
  cases ha : a with
  | nil =>
    cases b with
    | nil => simp [pathChars]
    | cons c bs =>
      refine ⟨c ++ (bs.map (fun x => '/' :: x)).flatten, ?_⟩
      simp [pathChars]
  | cons c as =>
    refine ⟨(b.map (fun x => '/' :: x)).flatten, ?_⟩
    simp [pathChars]

theorem keepComp_of_mem_uploadRelComps (path : List Char) (c : Comp)
    (h : c ∈ uploadRelComps path) : c ≠ [] ∧ c ≠ ['.'] := by
  have := List.of_mem_filter h
  simpa [keepComp] using this

theorem slashFree_of_mem_uploadRelComps (path : List Char) (c : Comp)
    (h : c ∈ uploadRelComps path) : '/' ∉ c :=
  splitSlash_slash_not_mem (replaceBackslash path) c (List.mem_of_mem_filter h)

theorem no_dotdot_mem (path : List Char)
    (h : containsSub dotdot (uploadRel path) = false) :
    ['.', '.'] ∉ uploadRelComps path := by
  intro hm
  rcases mem_intercalate_parts _ _ hm with ⟨s, t, hst⟩
  have := containsSub_of_parts dotdot s t _ hst
  rw [uploadRel] at h
  rw [h] at this
  exact Bool.false_ne_true this

theorem uploadRel_head (path : List Char) :
    uploadRel path = [] ∨
      ∃ a r, uploadRel path = a :: r ∧ a ≠ '/' := by
  rw [uploadRel]
  cases hc : uploadRelComps path with
  | nil => exact Or.inl rfl
  | cons c cs =>
    have hmem : c ∈ uploadRelComps path := hc ▸ List.mem_cons_self c cs
    have hne : c ≠ [] := (keepComp_of_mem_uploadRelComps path c hmem).1
    have hsf : '/' ∉ c := slashFree_of_mem_uploadRelComps path c hmem
    cases c with
    | nil => exact absurd rfl hne
    | cons a c' =>
      have ha : a ≠ '/' := fun e => hsf (e ▸ List.mem_cons_self a c')
      cases cs with
      | nil => exact Or.inr ⟨a, c', by simp [intercalateSlash], ha⟩
      | cons d ds =>
        exact Or.inr ⟨a, c' ++ '/' :: intercalateSlash (d :: ds),
          by simp [intercalateSlash], ha⟩

theorem uploadRel_not_abs (path : List Char) :
    (['/'] : List Char).isPrefixOf (uploadRel path) = false := by
  rcases uploadRel_head path with h | ⟨a, r, h, ha⟩
  · simp [h, List.isPrefixOf]
  · have : ¬('/' = a) := fun e => ha e.symm
    simp [h, List.isPrefixOf, this]

theorem uploadDest_eq (proj : String) (path : String)
    (h : containsSub dotdot (uploadRel path.data) = false) :
    uploadDest proj path = projRoot proj ++ uploadRelComps path.data := by
  rw [uploadDest, joinResolve]
  cases hc : uploadRelComps path.data with
  | nil =>
    simp only [uploadRel, hc, intercalateSlash]
    simp [splitSlash, resolveFrom]
  | cons c cs =>
    have hsf : ∀ x ∈ uploadRelComps path.data, '/' ∉ x :=
      fun x hx => slashFree_of_mem_uploadRelComps path.data x hx
    have hsplit : splitSlash (uploadRel path.data) = uploadRelComps path.data := by
      rw [uploadRel]
      exact splitSlash_intercalate _ (by simp [hc]) hsf
    have hhead : ¬((uploadRel path.data).head? = some '/') := by
      rcases uploadRel_head path.data with h1 | ⟨a, r, h1, ha⟩
      · simp [h1]
      · simp [h1, ha]
    rw [if_neg hhead, hsplit, hc]
    apply resolveFrom_regular
    intro x hx
    have hx' : x ∈ uploadRelComps path.data := by rw [hc]; exact hx
    refine ⟨?_, ?_⟩
    · have := keepComp_of_mem_uploadRelComps path.data x hx'
      tauto
    · intro hdd
      exact no_dotdot_mem path.data h (hdd ▸ hx')

theorem replaceBackslash_eq_self (s : List Char) (h : ∀ a ∈ s, a ≠ '\\') :
    replaceBackslash s = s := by
  rw [replaceBackslash]
  conv_rhs => rw [← List.map_id s]
  exact List.map_congr_left (fun a ha => by simp [h a ha])

/-- Download's resolution of a backslash-free, non-absolute, `..`-free client
path lands on the same destination upload computes for it. -/
theorem downloadPath_eq (proj : String) (path : String)
    (hbs : ∀ a ∈ path.data, a ≠ '\\')
    (habs : ¬(path.data.head? = some '/'))
    (hdd : containsSub dotdot (uploadRel path.data) = false) :
    joinResolve (projRoot proj) path.data = projRoot proj ++ uploadRelComps path.data := by
  rw [joinResolve, if_neg habs,
    resolveFrom_filter (splitSlash path.data) (projRoot proj)]
  have hcomps : (splitSlash path.data).filter keepComp = uploadRelComps path.data := by
    rw [uploadRelComps, replaceBackslash_eq_self path.data hbs]
  rw [hcomps]
  apply resolveFrom_regular
  intro x hx
  refine ⟨?_, fun hdd2 => no_dotdot_mem path.data hdd (hdd2 ▸ hx)⟩
  have := keepComp_of_mem_uploadRelComps path.data x hx
  tauto

/-! ### Token-registry lemmas -/

/-- Every registry entry reachable through `login` maps a project to its
deterministic token: the invariant `TOKENS` satisfies for its whole life. -/
def tokensInv (ts : Tokens) : Prop := ∀ kv ∈ ts, kv.2 = "token-" ++ kv.1

theorem tokensInv_nil : tokensInv [] := fun kv h => absurd h (List.not_mem_nil kv)

theorem tokensInv_updateTokens (ts : Tokens) (proj : String) (h : tokensInv ts) :
    tokensInv (updateTokens ts proj ("token-" ++ proj)) := by
  induction ts with
  | nil =>
    intro kv hkv
    simp only [updateTokens, List.mem_singleton] at hkv
    simp [hkv]
  | cons kv0 rest ih =>
    intro kv hkv
    rw [updateTokens] at hkv
    by_cases hb : kv0.1 == proj
    · rw [if_pos hb] at hkv
      rcases List.mem_cons.mp hkv with h1 | h1
      · simp [h1]
      · exact h kv (List.mem_cons_of_mem kv0 h1)
    · rw [if_neg hb] at hkv
      rcases List.mem_cons.mp hkv with h1 | h1
      · exact h kv (h1 ▸ List.mem_cons_self kv0 rest)
      · exact ih (fun x hx => h x (List.mem_cons_of_mem kv0 hx)) kv h1

theorem mem_updateTokens (ts : Tokens) (proj tok : String) :
    (proj, tok) ∈ updateTokens ts proj tok := by
  induction ts with
  | nil => simp [updateTokens]
  | cons kv rest ih =>
    rw [updateTokens]
    by_cases hb : kv.1 == proj
    · simp [hb]
    · simp only [hb, Bool.false_eq_true, if_false]
      exact List.mem_cons_of_mem kv ih

theorem token_append_inj {a b : String} (h : "token-" ++ a = "token-" ++ b) :
    a = b := by
  have h2 := congrArg String.data h
  simp only [String.data_append] at h2
  exact String.ext (List.append_cancel_left h2)

/-- Resolving the freshly minted token finds exactly its project, because the
registry invariant makes tokens injective in the project name. -/
theorem project_from_token_inv (ts : Tokens) (proj : String)
    (hinv : tokensInv ts) (hmem : (proj, "token-" ++ proj) ∈ ts) :
    project_from_token ts ("token-" ++ proj) = .ok proj := by
  rw [project_from_token]
  cases hf : ts.find? (fun kv => kv.2 == ("token-" ++ proj)) with
  | none =>
    have := List.find?_eq_none.mp hf _ hmem
    simp at this
  | some kv =>
    have h1 : kv.2 = "token-" ++ proj := by
      have := List.find?_some hf
      simpa using this
    have h2 : kv.2 = "token-" ++ kv.1 := hinv kv (List.mem_of_find?_eq_some hf)
    have : kv.1 = proj := token_append_inj (h2 ▸ h1 : _)
    simp [this]

/-! ### Byte-strip lemma -/

theorem stripBytes_append_newline (l : Bytes) :
    stripBytes (l ++ [10]) = stripBytes l := by
  rw [stripBytes, stripBytes]
  have : (l ++ [10]).reverse.dropWhile wsByte = l.reverse.dropWhile wsByte := by
    rw [List.reverse_append]
    simp [List.dropWhile_cons, wsByte]
  rw [this]

/-! ### Handler-level helper lemmas -/

theorem login_success {fs : FS} {ts : Tokens} {bc : Bytes → Bytes → Option Bool}
    {proj : String} {pw : Bytes}
    (h1 : projExists fs proj = true) (h2 : has_passwd fs proj = true)
    (h3 : verify_password fs bc proj pw = true) :
    login fs ts bc proj pw =
      (.ok ("token-" ++ proj), updateTokens ts proj ("token-" ++ proj)) := by
  rw [login, if_neg (by simp [h1]), if_neg (by simp [h2]), if_neg (by simp [h3])]

theorem login_ok_elim {fs : FS} {ts : Tokens} {bc : Bytes → Bytes → Option Bool}
    {proj : String} {pw : Bytes} {t : String} {r : Tokens}
    (h : login fs ts bc proj pw = (.ok t, r)) :
    t = "token-" ++ proj ∧ r = updateTokens ts proj ("token-" ++ proj) := by
  rw [login] at h
  by_cases h1 : projExists fs proj = false
  · rw [if_pos h1] at h; simp at h
  · rw [if_neg h1] at h
    by_cases h2 : has_passwd fs proj = false
    · rw [if_pos h2] at h; simp at h
    · rw [if_neg h2] at h
      by_cases h3 : verify_password fs bc proj pw = false
      · rw [if_pos h3] at h; simp at h
      · rw [if_neg h3] at h
        simp only [Prod.mk.injEq, Except.ok.injEq] at h
        exact ⟨h.1.symm, h.2.symm⟩

theorem require_bearer_ok (tok : String) :
    require_bearer (some ("Bearer " ++ tok)) = .ok tok := by
  rw [require_bearer]
  have hpre : ("Bearer ".data).isPrefixOf (("Bearer " ++ tok).data) = true :=
    List.isPrefixOf_iff_prefix.mpr ⟨tok.data, by simp⟩
  rw [if_neg (by simp [hpre])]
  have hdrop : ("Bearer " ++ tok).data.drop 7 = tok.data := by
    rw [String.data_append]
    exact List.drop_left' (by rfl)
  rw [hdrop]

/-- An upload whose normalized relative path passes the `..` test always
succeeds, writing the bytes at the resolved destination. -/
theorem uploadCore_success (fs : FS) (proj path : String) (content : Bytes)
    (hdd : containsSub dotdot (uploadRel path.data) = false) :
    uploadCore fs proj path content =
      .ok (setFS (mkParents fs (uploadDest proj path)) (uploadDest proj path)
            (.file content),
        savedRel (projRoot proj) (uploadDest proj path)) := by
  have hpre : (pathChars (projRoot proj)).isPrefixOf (pathChars (uploadDest proj path)) = true := by
    rw [uploadDest_eq proj path hdd]
    exact pathChars_isPrefixOf_append _ _
  simp only [uploadCore]
  rw [if_neg (by simp [hdd, uploadRel_not_abs]), if_neg (by simp [hpre])]

/-! ### Concrete fixtures -/

/-- A bcrypt oracle that always raises (never consulted on the plaintext
legacy path the fixtures use). -/
def bcNone : Bytes → Bytes → Option Bool := fun _ _ => none

/-- A store holding project `DEMO` with the legacy plaintext credential
`secret123`. -/
def demoFS : FS :=
  [(projRoot "DEMO", .dir), (passwd_path "DEMO", .file (asciiBytes "secret123"))]

/-- A store whose only file lives in project `AB`, a sibling of project `A`
whose name extends `A`. -/
def sibFS : FS := [(projectsDir ++ ["AB".data, "x".data], .file [42])]

/-- Project `DEMO` with a different plaintext credential. -/
def demo2FS : FS :=
  [(projRoot "DEMO", .dir), (passwd_path "DEMO", .file (asciiBytes "hunter2"))]

/-- Project `EMPTY` exists but has no credential record. -/
def noPwFS : FS := [(projRoot "EMPTY", .dir)]

/-- Project `A` holding only the directory `d`. -/
def dirFS : FS := [(projRoot "A" ++ ["d".data], .dir)]

/-- Project `A` holding only the regular file `f.bgeo`. -/
def fileFS : FS := [(projRoot "A" ++ ["f.bgeo".data], .file [1, 2])]

/-- Destination path used by the upload-interruption scenario. -/
def dstA : AbsPath := projRoot "A" ++ ["f.bgeo".data]

/-- A store where `dstA` already holds the complete bytes `[1, 2, 3]`. -/
def oldFS : FS := [(dstA, .file [1, 2, 3])]

/-! ### Claims -/

/-- C3, counterexample: a wrong password against project `DEMO` (which has a
credential record) yields the body `Invalid password`, while any password
against project `EMPTY` (no credential record) yields the body
`Password not set for project`; the two error responses are not identical, so
the claim as stated is false. -/
theorem C3_counterexample :
    (login demoFS [] bcNone "DEMO" (asciiBytes "wrong")).1 =
        .error ⟨401, "Invalid password"⟩ ∧
    (login noPwFS [] bcNone "EMPTY" (asciiBytes "wrong")).1 =
        .error ⟨401, "Password not set for project"⟩ ∧
    (⟨401, "Invalid password"⟩ : HError) ≠ ⟨401, "Password not set for project"⟩ :=
  ⟨rfl, rfl, by decide⟩

/-- C3, amended: the wrong-password case and the no-credential-record case
both fail with HTTP status 401, but with different bodies (`Invalid password`
versus `Password not set for project`), so an unauthenticated client can
distinguish the two sub-cases by the response body though not by the status
code. -/
theorem C3_amended (fs fs' : FS) (ts ts' : Tokens)
    (bc bc' : Bytes → Bytes → Option Bool) (proj proj' : String) (pw pw' : Bytes)
    (h1 : projExists fs proj = true) (h2 : has_passwd fs proj = true)
    (h3 : verify_password fs bc proj pw = false)
    (h1' : projExists fs' proj' = true) (h2' : has_passwd fs' proj' = false) :
    (login fs ts bc proj pw).1 = .error ⟨401, "Invalid password"⟩ ∧
    (login fs' ts' bc' proj' pw').1 = .error ⟨401, "Password not set for project"⟩ ∧
    "Invalid password" ≠ "Password not set for project" := by
  refine ⟨?_, ?_, by decide⟩
  · rw [login, if_neg (by simp [h1]), if_neg (by simp [h2]), if_pos h3]
  · rw [login, if_neg (by simp [h1']), if_pos h2']

/-- C3, witness for the amended claim at concrete inputs. -/
theorem C3_witness :
    (login demoFS [] bcNone "DEMO" (asciiBytes "wrong")).1 =
        .error ⟨401, "Invalid password"⟩ ∧
    (login noPwFS [] bcNone "EMPTY" (asciiBytes "wrong")).1 =
        .error ⟨401, "Password not set for project"⟩ ∧
    "Invalid password" ≠ "Password not set for project" :=
  C3_amended demoFS noPwFS [] [] bcNone bcNone "DEMO" "EMPTY"
    (asciiBytes "wrong") (asciiBytes "wrong") rfl rfl rfl rfl rfl

/-- C5: for a project with a credential record, login with a verifying
password returns the token `token-<project>`, and resolving that token in the
updated registry returns exactly that project (given the registry invariant
that every live entry maps a project to its deterministic token). -/
theorem C5_login_resolve (fs : FS) (ts : Tokens) (bc : Bytes → Bytes → Option Bool)
    (proj : String) (pw : Bytes)
    (hinv : tokensInv ts)
    (h1 : projExists fs proj = true) (h2 : has_passwd fs proj = true)
    (h3 : verify_password fs bc proj pw = true) :
    (login fs ts bc proj pw).1 = .ok ("token-" ++ proj) ∧
    project_from_token (login fs ts bc proj pw).2 ("token-" ++ proj) = .ok proj := by
  rw [login_success h1 h2 h3]
  exact ⟨rfl, project_from_token_inv _ proj (tokensInv_updateTokens ts proj hinv)
    (mem_updateTokens ts proj _)⟩

/-- C5, witness: concrete login to `DEMO` with the correct password. -/
theorem C5_witness :
    (login demoFS [] bcNone "DEMO" (asciiBytes "secret123")).1 =
        .ok ("token-" ++ "DEMO") ∧
    project_from_token (login demoFS [] bcNone "DEMO" (asciiBytes "secret123")).2
        ("token-" ++ "DEMO") = .ok "DEMO" :=
  C5_login_resolve demoFS [] bcNone "DEMO" (asciiBytes "secret123")
    tokensInv_nil rfl rfl rfl

/-- C6: when the credential record is absent, verification returns false for
every presented secret and for every bcrypt oracle, and login against the
project (whose directory exists) is rejected with the 401 error. -/
theorem C6_fail_closed (fs : FS) (ts : Tokens) (bc : Bytes → Bytes → Option Bool)
    (proj : String) (pw : Bytes) (h : has_passwd fs proj = false) :
    verify_password fs bc proj pw = false ∧
      (projExists fs proj = true →
        (login fs ts bc proj pw).1 = .error ⟨401, "Password not set for project"⟩) := by
  have hv : verify_password fs bc proj pw = false := by
    rw [has_passwd] at h
    cases hl : lookupFS fs (passwd_path proj) with
    | none => simp only [verify_password, hl]
    | some e => rw [hl] at h; simp at h
  refine ⟨hv, fun hp => ?_⟩
  rw [login, if_neg (by simp [hp]), if_pos h]

/-- C6, witness: project `EMPTY` has no record; any password fails. -/
theorem C6_witness :
    verify_password noPwFS bcNone "EMPTY" (asciiBytes "anything") = false ∧
      (login noPwFS [] bcNone "EMPTY" (asciiBytes "anything")).1 =
        .error ⟨401, "Password not set for project"⟩ :=
  ⟨(C6_fail_closed noPwFS [] bcNone "EMPTY" (asciiBytes "anything") rfl).1,
   (C6_fail_closed noPwFS [] bcNone "EMPTY" (asciiBytes "anything") rfl).2 rfl⟩

/-- C7: a project tree with exactly the regular files `a.bgeo`, `b.vdb` and
`readme.txt` yields exactly two asset records, for `a.bgeo` and `b.vdb`, for
any file sizes; `readme.txt` is excluded because `txt` is not in the
recognized extension set. -/
theorem C7_manifest_filters (s1 s2 s3 : Nat) :
    buildManifest [("a.bgeo", s1), ("b.vdb", s2), ("readme.txt", s3)] =
      [⟨"a", "bgeo", 1, "a.bgeo", none, s1⟩,
       ⟨"b", "vdb", 1, "b.vdb", none, s2⟩] := rfl

/-- C9: every successful login returns the deterministic token
`"token-" ++ project`, so two successful logins to the same project — from any
states and with any accepted passwords — return byte-identical tokens
computable from the project name alone. -/
theorem C9_token_deterministic
    (fs₁ fs₂ : FS) (ts₁ ts₂ : Tokens) (bc₁ bc₂ : Bytes → Bytes → Option Bool)
    (proj : String) (pw₁ pw₂ : Bytes) (t₁ t₂ : String) (r₁ r₂ : Tokens)
    (h₁ : login fs₁ ts₁ bc₁ proj pw₁ = (.ok t₁, r₁))
    (h₂ : login fs₂ ts₂ bc₂ proj pw₂ = (.ok t₂, r₂)) :
    t₁ = "token-" ++ proj ∧ t₁ = t₂ := by
  have e₁ := (login_ok_elim h₁).1
  have e₂ := (login_ok_elim h₂).1
  exact ⟨e₁, e₁.trans e₂.symm⟩

/-- C9, witness: logins to `DEMO` under two different credential records and
passwords return the same token `token-DEMO`. -/
theorem C9_witness :
    "token-DEMO" = "token-" ++ "DEMO" ∧ "token-DEMO" = "token-DEMO" :=
  C9_token_deterministic demoFS demo2FS [] [] bcNone bcNone "DEMO"
    (asciiBytes "secret123") (asciiBytes "hunter2") "token-DEMO" "token-DEMO"
    [("DEMO", "token-DEMO")] [("DEMO", "token-DEMO")] rfl rfl

/-- C10: credential verification strips whitespace from the stored record
before either comparison path — appending a trailing newline (or prepending a
blank) to the record never changes the outcome, for every bcrypt oracle — and
concretely the plaintext record `secret123` followed by a newline verifies the
password `secret123`, while the presented password carrying the newline
itself does not match. -/
theorem C10_verify_strips_record :
    (∀ (bc : Bytes → Bytes → Option Bool) (raw pw : Bytes),
        verifyRaw bc (raw ++ [10]) pw = verifyRaw bc raw pw) ∧
    (∀ bc : Bytes → Bytes → Option Bool,
        verifyRaw bc (asciiBytes "secret123" ++ [10]) (asciiBytes "secret123") = true) ∧
    (∀ bc : Bytes → Bytes → Option Bool,
        verifyRaw bc ([32] ++ asciiBytes "secret123") (asciiBytes "secret123") = true) ∧
    (∀ bc : Bytes → Bytes → Option Bool,
        verifyRaw bc (asciiBytes "secret123" ++ [10])
          (asciiBytes "secret123" ++ [10]) = false) := by
  refine ⟨fun bc raw pw => ?_, fun bc => rfl, fun bc => rfl, fun bc => rfl⟩
  simp only [verifyRaw, stripBytes_append_newline]

theorem uploadRel_slash_cons (s : List Char) :
    uploadRel ('/' :: s) = uploadRel s := by
  rw [uploadRel, uploadRel, uploadRelComps, uploadRelComps]
  have h1 : replaceBackslash ('/' :: s) = '/' :: replaceBackslash s := by
    simp [replaceBackslash]
  have h2 : splitSlash ('/' :: replaceBackslash s) =
      [] :: splitSlash (replaceBackslash s) := by
    simp [splitSlash]
  rw [h1, h2, List.filter_cons_of_neg (by simp [keepComp])]

/-- C1, counterexample: the client path `../AB/x` contains a `..` segment, yet
download from project `A` does not fail with InvalidPath: the path resolves to
`/srv/eld/projects/AB/x`, which escapes project `A`'s root (it is not below it
component-wise) but passes the string-prefix check because the root string
`/srv/eld/projects/A` is a string prefix of it, and the sibling project's
file is served. -/
theorem C1_counterexample :
    containsSub dotdot "../AB/x".data = true ∧
    downloadCore sibFS "A" "../AB/x" =
        .serve (projectsDir ++ ["AB".data, "x".data]) ∧
    (projRoot "A").isPrefixOf (joinResolve (projRoot "A") "../AB/x".data) = false :=
  ⟨by decide, rfl, by decide⟩

/-- C1, amended: upload rejects with InvalidPath (and without touching the
store) exactly the paths whose normalized relative form contains the substring
`..`; every path passing that test is accepted and resolves inside the
project root. An absolute-path prefix is not rejected by upload: leading
slashes are stripped and the path is treated as relative. Download checks only
that the resolved absolute path string extends the project-root string, which
a `..` path escaping to a sibling directory whose name extends the project
name passes, reaching outside the project root. -/
theorem C1_amended :
    (∀ (fs : FS) (proj path : String) (content : Bytes),
        containsSub dotdot (uploadRel path.data) = true →
          uploadCore fs proj path content = .error ⟨400, "Invalid path"⟩) ∧
    (∀ (proj path : String),
        containsSub dotdot (uploadRel path.data) = false →
          (projRoot proj).isPrefixOf (uploadDest proj path) = true ∧
          ∀ (fs : FS) (content : Bytes),
            ∃ r, uploadCore fs proj path content = .ok r) ∧
    (∀ (fs : FS) (proj path : String) (content : Bytes),
        uploadCore fs proj ⟨'/' :: path.data⟩ content =
          uploadCore fs proj path content) ∧
    (downloadCore sibFS "A" "../AB/x" =
        .serve (projectsDir ++ ["AB".data, "x".data]) ∧
      (projRoot "A").isPrefixOf (joinResolve (projRoot "A") "../AB/x".data) = false) := by
  refine ⟨fun fs proj path content h => ?_, fun proj path h => ?_,
    fun fs proj path content => ?_, rfl, by decide⟩
  · simp only [uploadCore]
    rw [if_pos (by simp [h])]
  · refine ⟨?_, fun fs content => ⟨_, uploadCore_success fs proj path content h⟩⟩
    rw [uploadDest_eq proj path h]
    exact List.isPrefixOf_iff_prefix.mpr ⟨uploadRelComps path.data, rfl⟩
  · have hd : (⟨'/' :: path.data⟩ : String).data = '/' :: path.data := rfl
    simp only [uploadCore, uploadDest, hd, uploadRel_slash_cons]

/-- C1, witness for the amended claim: `../x` is rejected with InvalidPath;
`shots/a.bgeo` passes the test, is accepted and resolves inside the root. -/
theorem C1_witness :
    uploadCore ([] : FS) "A" "../x" [1] = .error ⟨400, "Invalid path"⟩ ∧
    ((projRoot "A").isPrefixOf (uploadDest "A" "shots/a.bgeo") = true ∧
      ∃ r, uploadCore ([] : FS) "A" "shots/a.bgeo" [1] = .ok r) := by
  refine ⟨C1_amended.1 [] "A" "../x" [1] (by decide), ?_⟩
  have h := C1_amended.2.1 "A" "shots/a.bgeo" (by decide)
  exact ⟨h.1, h.2 [] [1]⟩

/-- C2, counterexample: with the complete bytes `[1, 2, 3]` previously stored
at the destination, the upload stream `[9], [8]` interrupted after its first
chunk is observable at the final path as the partial file `[9]` — neither the
previous content nor the complete new content — so a partially written file
is observable at the final path and the claim as stated is false. -/
theorem C2_counterexample :
    setFS oldFS dstA (.file [9]) ∈ writeStates oldFS dstA [[9], [8]] ∧
    lookupFS (setFS oldFS dstA (.file [9])) dstA = some (.file [9]) ∧
    some (FsEntry.file [9]) ≠ some (FsEntry.file [1, 2, 3]) ∧
    some (FsEntry.file [9]) ≠ some (FsEntry.file [9, 8]) :=
  ⟨by decide, rfl, by decide, by decide⟩

/-- C2, amended: upload writes the stream directly into the destination file —
there is no temporary file and no rename. The destination is truncated on
open and grows chunk by chunk, so every state observable during the transfer
holds some prefix-concatenation of the incoming chunks (the previous bytes are
destroyed at open); the state after the final chunk, which is exactly the
state the handler returns, holds the complete uploaded bytes. -/
theorem C2_amended :
    (∀ (fs : FS) (dest : AbsPath) (chunks : List Bytes) (s : FS),
        s ∈ writeStates fs dest chunks →
          ∃ k, k ≤ chunks.length ∧
            lookupFS s dest = some (.file ((chunks.take k).flatten))) ∧
    (∀ (fs : FS) (dest : AbsPath) (chunks : List Bytes),
        setFS fs dest (.file chunks.flatten) ∈ writeStates fs dest chunks) ∧
    (∀ (fs : FS) (proj path : String) (chunks : List Bytes) (r : FS × List Char),
        uploadCore fs proj path chunks.flatten = .ok r →
          r.1 ∈ writeStates (mkParents fs (uploadDest proj path))
            (uploadDest proj path) chunks) := by
  have part2 : ∀ (fs : FS) (dest : AbsPath) (chunks : List Bytes),
      setFS fs dest (.file chunks.flatten) ∈ writeStates fs dest chunks := by
    intro fs dest chunks
    rw [writeStates]
    exact List.mem_map.mpr ⟨chunks.length, List.mem_range.mpr (Nat.lt_succ_self _),
      by rw [List.take_length]⟩
  refine ⟨fun fs dest chunks s hs => ?_, part2, fun fs proj path chunks r h => ?_⟩
  · rw [writeStates] at hs
    rcases List.mem_map.mp hs with ⟨k, hk, rfl⟩
    exact ⟨k, Nat.lt_succ_iff.mp (List.mem_range.mp hk),
      lookupFS_setFS_self _ _ _⟩
  · simp only [uploadCore] at h
    split at h
    · simp at h
    · split at h
      · simp at h
      · rw [← Except.ok.inj h]
        exact part2 _ _ chunks

/-- C2, witness for the amended claim at the concrete interruption scenario. -/
theorem C2_witness :
    (∃ k, k ≤ 2 ∧ lookupFS (setFS oldFS dstA (.file [9])) dstA =
        some (.file ((([[9], [8]] : List Bytes).take k).flatten))) ∧
    setFS oldFS dstA (.file ([[9], [8]] : List Bytes).flatten) ∈
        writeStates oldFS dstA [[9], [8]] ∧
    (setFS (mkParents oldFS (uploadDest "A" "f.bgeo")) (uploadDest "A" "f.bgeo")
        (.file [9, 8]),
      savedRel (projRoot "A") (uploadDest "A" "f.bgeo")).1 ∈
        writeStates (mkParents oldFS (uploadDest "A" "f.bgeo"))
          (uploadDest "A" "f.bgeo") [[9], [8]] :=
  ⟨C2_amended.1 oldFS dstA [[9], [8]] (setFS oldFS dstA (.file [9])) (by decide),
   C2_amended.2.1 oldFS dstA [[9], [8]],
   C2_amended.2.2 oldFS "A" "f.bgeo" [[9], [8]] _ rfl⟩

/-- C8, counterexample: the path `d` of project `A` names a directory; the
existence check passes, so the handler does not fail with NotFound but
returns a file response over the directory (which yields no byte stream), so
the claim that every non-regular-file path yields 404 is false. -/
theorem C8_counterexample :
    downloadCore dirFS "A" "d" = .serve (projRoot "A" ++ ["d".data]) ∧
    downloadCore dirFS "A" "d" ≠ .err ⟨404, "File not found"⟩ ∧
    dlBytes dirFS (downloadCore dirFS "A" "d") = none :=
  ⟨rfl, by decide, rfl⟩

/-- C8, amended: for an authenticated download whose path passes the
string-prefix validation, a path where nothing exists fails with NotFound
(404); an existing regular file is served and streams exactly its bytes; but
a path naming a directory passes the mere existence check — the handler
returns a file response over the directory, which produces no byte stream yet
is not the 404 error. -/
theorem C8_amended (fs : FS) (proj path : String)
    (hok : (pathChars (projRoot proj)).isPrefixOf
        (pathChars (joinResolve (projRoot proj) path.data)) = true) :
    (lookupFS fs (joinResolve (projRoot proj) path.data) = none →
        downloadCore fs proj path = .err ⟨404, "File not found"⟩) ∧
    (∀ b, lookupFS fs (joinResolve (projRoot proj) path.data) = some (.file b) →
        downloadCore fs proj path = .serve (joinResolve (projRoot proj) path.data) ∧
        dlBytes fs (downloadCore fs proj path) = some b) ∧
    (lookupFS fs (joinResolve (projRoot proj) path.data) = some .dir →
        downloadCore fs proj path = .serve (joinResolve (projRoot proj) path.data) ∧
        dlBytes fs (downloadCore fs proj path) = none) := by
  refine ⟨fun hnone => ?_, fun b hfile => ?_, fun hdir => ?_⟩
  · simp only [downloadCore]
    rw [if_neg (by simp [hok]), if_pos (by simp [hnone])]
  · have hs : downloadCore fs proj path =
        .serve (joinResolve (projRoot proj) path.data) := by
      simp only [downloadCore]
      rw [if_neg (by simp [hok]), if_neg (by simp [hfile])]
    exact ⟨hs, by rw [hs]; simp [dlBytes, hfile]⟩
  · have hs : downloadCore fs proj path =
        .serve (joinResolve (projRoot proj) path.data) := by
      simp only [downloadCore]
      rw [if_neg (by simp [hok]), if_neg (by simp [hdir])]
    exact ⟨hs, by rw [hs]; simp [dlBytes, hdir]⟩

/-- C8, witness: a missing path yields 404, the file `f.bgeo` streams its
bytes, and the directory `d` is served without a byte stream instead of 404. -/
theorem C8_witness :
    downloadCore fileFS "A" "nope" = .err ⟨404, "File not found"⟩ ∧
    (downloadCore fileFS "A" "f.bgeo" = .serve (projRoot "A" ++ ["f.bgeo".data]) ∧
      dlBytes fileFS (downloadCore fileFS "A" "f.bgeo") = some [1, 2]) ∧
    (downloadCore dirFS "A" "d" = .serve (projRoot "A" ++ ["d".data]) ∧
      dlBytes dirFS (downloadCore dirFS "A" "d") = none) :=
  ⟨(C8_amended fileFS "A" "nope" rfl).1 rfl,
   (C8_amended fileFS "A" "f.bgeo" rfl).2.1 [1, 2] rfl,
   (C8_amended dirFS "A" "d" rfl).2.2 rfl⟩

/-- C4: uploading bytes `B` to a valid relative path `P` (backslash-free,
non-absolute, passing the `..` test, as every well-formed project-relative
path is) with the token minted by a successful login, then downloading `P`
with the same token, streams exactly `B`. -/
theorem C4_roundtrip (fs : FS) (ts : Tokens) (bc : Bytes → Bytes → Option Bool)
    (proj : String) (pw : Bytes) (path : String) (B : Bytes)
    (tok : String) (ts' : Tokens)
    (hinv : tokensInv ts)
    (hlog : login fs ts bc proj pw = (.ok tok, ts'))
    (hbs : ∀ a ∈ path.data, a ≠ '\\')
    (habs : ¬(path.data.head? = some '/'))
    (hdd : containsSub dotdot (uploadRel path.data) = false) :
    ∃ fs' saved,
      upload ts' fs path B (some ("Bearer " ++ tok)) = .ok (fs', saved) ∧
      dlBytes fs' (download ts' fs' path (some ("Bearer " ++ tok))) = some B := by
  obtain ⟨htok, hts'⟩ := login_ok_elim hlog
  subst htok
  subst hts'
  have hud : uploadDest proj path = projRoot proj ++ uploadRelComps path.data :=
    uploadDest_eq proj path hdd
  have hdl : joinResolve (projRoot proj) path.data =
      projRoot proj ++ uploadRelComps path.data :=
    downloadPath_eq proj path hbs habs hdd
  have hrb := require_bearer_ok ("token-" ++ proj)
  have hres := project_from_token_inv _ proj
    (tokensInv_updateTokens ts proj hinv) (mem_updateTokens ts proj _)
  refine ⟨setFS (mkParents fs (uploadDest proj path)) (uploadDest proj path)
      (.file B),
    savedRel (projRoot proj) (uploadDest proj path), ?_, ?_⟩
  · rw [upload, hrb]
    simp only [hres]
    exact uploadCore_success fs proj path B hdd
  · rw [download, hrb]
    simp only [hres]
    have hpre : (pathChars (projRoot proj)).isPrefixOf
        (pathChars (joinResolve (projRoot proj) path.data)) = true := by
      rw [hdl]
      exact pathChars_isPrefixOf_append _ _
    have hlook : lookupFS
        (setFS (mkParents fs (uploadDest proj path)) (uploadDest proj path)
          (.file B))
        (joinResolve (projRoot proj) path.data) = some (.file B) := by
      rw [hdl, ← hud]
      exact lookupFS_setFS_self _ _ _
    have hs : downloadCore
        (setFS (mkParents fs (uploadDest proj path)) (uploadDest proj path)
          (.file B)) proj path =
        .serve (joinResolve (projRoot proj) path.data) := by
      simp only [downloadCore]
      rw [if_neg (by simp [hpre]), if_neg (by simp [hlook])]
    rw [hs]
    simp [dlBytes, hlook]

/-- C4, witness: round trip of `[1, 2, 3]` through `shots/a.bgeo` on project
`DEMO` with the token from a concrete successful login. -/
theorem C4_witness :
    ∃ fs' saved,
      upload [("DEMO", "token-DEMO")] demoFS "shots/a.bgeo" [1, 2, 3]
          (some ("Bearer " ++ "token-DEMO")) = .ok (fs', saved) ∧
      dlBytes fs' (download [("DEMO", "token-DEMO")] fs' "shots/a.bgeo"
          (some ("Bearer " ++ "token-DEMO"))) = some [1, 2, 3] :=
  C4_roundtrip demoFS [] bcNone "DEMO" (asciiBytes "secret123") "shots/a.bgeo"
    [1, 2, 3] "token-DEMO" [("DEMO", "token-DEMO")] tokensInv_nil rfl
    (by decide) (by decide) (by decide)

end ELD
